import Mathlib

/-!
Formal model of the three technical-indicator calculators of the tifft
package (`tifft/bollingerbands.py`, `tifft/macd.py`, `tifft/rsi.py`).

A price series is a `List (Option q)`: `none` stands for a missing entry
(`NaN`).  The pandas pipeline of each `calculate` method is embedded
column by column; each output table is a list of row structures, one row
per input position.  MACD and RSI use exact rationals; Bollinger Bands
use reals, since the rolling standard deviation takes a square root.
`MacdCalculator.calculate` returns an `Option` table because its final
`astype(int)` raises on a NaN signal cell, which happens exactly when
the series starts with a missing value.
-/

/-- Forward-fill worker: `last` is the most recent non-missing value seen. -/
def ffillAux {α : Type*} (last : Option α) : List (Option α) → List (Option α)
  | [] => []
  | none :: t => last :: ffillAux last t
  | some v :: t => some v :: ffillAux (some v) t

/-- Pandas `Series.ffill`: a missing entry becomes the closest earlier
non-missing value; leading missing entries stay missing. -/
def ffill {α : Type*} (xs : List (Option α)) : List (Option α) :=
  ffillAux none xs

/-- Turn a list of optional values into an optional list: `some` of the
values when none is missing, `none` otherwise. -/
def optList {α : Type*} : List (Option α) → Option (List α)
  | [] => some []
  | none :: _ => none
  | some v :: t => (optList t).map (fun l => v :: l)

/-- Mean of a list, as pandas computes it (sum divided by length). -/
def lmean {α : Type*} [DivisionRing α] (l : List α) : α :=
  l.sum / l.length

/-- Sample variance with one delta degree of freedom (`ddof=1`), the
default of pandas `rolling(...).std()`. -/
def sampleVar {α : Type*} [Field α] (l : List α) : α :=
  (l.map (fun x => (x - lmean l) ^ 2)).sum / ((l.length : α) - 1)

/-- The length-`w` window of entries at positions `i-w+1 .. i`, available
only when the window fits inside the series and every entry in it is
present: pandas `rolling(window=w)` with its default `min_periods=w`
yields a value exactly under these conditions (pandas rejects
non-positive windows at construction). -/
def rollingWindow {α : Type*} (w : ℕ) (xs : List (Option α)) (i : ℕ) :
    Option (List α) :=
  if 1 ≤ w ∧ w ≤ i + 1 ∧ i < xs.length then
    optList ((xs.drop (i + 1 - w)).take w)
  else none

/-- Pandas `rolling(window=w).mean()` at position `i`. -/
def rollingMean {α : Type*} [Field α] (w : ℕ) (xs : List (Option α)) (i : ℕ) :
    Option α :=
  (rollingWindow w xs i).map lmean

/-- Pandas `rolling(window=w).var()` (`ddof=1`) at position `i`; a window
of a single observation has no sample variance. -/
def rollingVar {α : Type*} [Field α] (w : ℕ) (xs : List (Option α)) (i : ℕ) :
    Option α :=
  (rollingWindow w xs i).bind
    (fun l => if l.length ≤ 1 then none else some (sampleVar l))

/-- Python's built-in `round`: round half to even. -/
noncomputable def pyRound (x : ℝ) : ℤ :=
  if x - ⌊x⌋ = 1 / 2 then (if Even ⌊x⌋ then ⌊x⌋ else ⌊x⌋ + 1) else round x

/-- Python's `int(...)` on a float: truncation toward zero. -/
def pyIntCast (q : ℚ) : ℤ :=
  if 0 ≤ q then ⌊q⌋ else ⌈q⌉

/-- Tolerance for floating point comparison (`bollingerbands.py`, line 18). -/
noncomputable def FLOAT_TOLERANCE : ℝ := 1 / 10 ^ 10

/-- One row of the Bollinger Bands output table. -/
structure BBRow where
  value : Option ℝ
  ma : Option ℝ
  sd : Option ℝ
  lower_bb : Option ℝ
  upper_bb : Option ℝ
  signal : ℤ

/-- Row used as the out-of-range default when indexing a Bollinger table. -/
def bbDefault : BBRow := ⟨none, none, none, none, none, 0⟩

/-- The `ma` column: rolling mean of the forward-filled values. -/
noncomputable def bbMa (w : ℕ) (xs : List (Option ℝ)) (i : ℕ) : Option ℝ :=
  rollingMean w (ffill xs) i

/-- The `sd` column: rolling sample standard deviation of the
forward-filled values. -/
noncomputable def bbSd (w : ℕ) (xs : List (Option ℝ)) (i : ℕ) : Option ℝ :=
  (rollingVar w (ffill xs) i).map Real.sqrt

/-- The internal `residual` column `(value_ff - ma) / sd`.  A zero `sd`
forces a zero numerator (the window is constant and `value_ff i` is its
last entry), so the float division is `0.0/0.0 = NaN`, i.e. `none`. -/
noncomputable def bbResidual (w : ℕ) (xs : List (Option ℝ)) (i : ℕ) :
    Option ℝ :=
  match (ffill xs).getD i none, bbMa w xs i, bbSd w xs i with
  | some v, some m, some s => if s = 0 then none else some ((v - m) / s)
  | _, _, _ => none

/-- The signal mapping applied to a present residual value
(`bollingerbands.py`, lines 89-95). -/
noncomputable def bbSignalVal (x : ℝ) : ℤ :=
  if |x - (pyRound x : ℝ)| > FLOAT_TOLERANCE then
    (if 0 < x then ⌊x⌋ else ⌈x⌉)
  else pyRound x

/-- The `signal` column: `0` for a missing residual, `bbSignalVal`
otherwise. -/
noncomputable def bbSignal (w : ℕ) (xs : List (Option ℝ)) (i : ℕ) : ℤ :=
  match bbResidual w xs i with
  | none => 0
  | some x => bbSignalVal x

/-- Row `i` of the Bollinger Bands output table. -/
noncomputable def bbRowAt (w : ℕ) (sd_multiplier : ℝ) (xs : List (Option ℝ))
    (i : ℕ) : BBRow :=
  { value := xs.getD i none
    ma := bbMa w xs i
    sd := bbSd w xs i
    lower_bb := Option.map₂ (fun m s => m - s * sd_multiplier)
      (bbMa w xs i) (bbSd w xs i)
    upper_bb := Option.map₂ (fun m s => m + s * sd_multiplier)
      (bbMa w xs i) (bbSd w xs i)
    signal := bbSignal w xs i }

/-- `BollingerBandsCalculator.calculate` with the given `window_size`
and `sd_multiplier`. -/
noncomputable def BollingerBandsCalculator.calculate (window_size : ℕ)
    (sd_multiplier : ℝ) (xs : List (Option ℝ)) : List BBRow :=
  (List.range xs.length).map (bbRowAt window_size sd_multiplier xs)

/-- Width `upper_bb - lower_bb` of the band at a row. -/
def bandWidth (r : BBRow) : Option ℝ :=
  Option.map₂ (fun u l => u - l) r.upper_bb r.lower_bb

/-- Decay coefficient of pandas `ewm(span=s)`: `alpha = 2 / (s + 1)`. -/
def ewmAlpha (span : ℕ) : ℚ :=
  2 / (span + 1)

/-- Worker for pandas `ewm(span, adjust=False).mean()`: the state is the
previous output value.  A missing input yields a missing output and
leaves the state unchanged; in this development the inputs fed to `ewm`
have all their missing entries leading, for which this is exactly the
pandas behaviour. -/
def ewmAux (a : ℚ) : Option ℚ → List (Option ℚ) → List (Option ℚ)
  | _, [] => []
  | st, none :: t => none :: ewmAux a st t
  | st, some v :: t =>
    match st with
    | none => some v :: ewmAux a (some v) t
    | some p => some (a * v + (1 - a) * p) :: ewmAux a (some (a * v + (1 - a) * p)) t

/-- Pandas `ewm(span=span, adjust=False).mean()`. -/
def ewmMean (span : ℕ) (xs : List (Option ℚ)) : List (Option ℚ) :=
  ewmAux (ewmAlpha span) none xs

/-- Modelled from the spec, section 4.2: the recursive non-adjusted EMA
on a fully present series, `ema[0] = v[0]`,
`ema[i] = alpha * v[i] + (1 - alpha) * ema[i-1]`. -/
def specEmaAux (a : ℚ) (prev : ℚ) : List ℚ → List ℚ
  | [] => []
  | v :: t => (a * v + (1 - a) * prev) :: specEmaAux a (a * v + (1 - a) * prev) t

/-- Modelled from the spec, section 4.2: the EMA sequence of a series,
starting at its first value, with `alpha = 2 / (span + 1)`. -/
def specEma (span : ℕ) : List ℚ → List ℚ
  | [] => []
  | v :: t => v :: specEmaAux (ewmAlpha span) v t

/-- One row of the MACD output table. -/
structure MacdRow where
  value : Option ℚ
  macd : Option ℚ
  macd_ema : Option ℚ
  signal : ℤ
  deriving DecidableEq

/-- The `macd` column: fast EMA minus slow EMA of the forward-filled
values. -/
def macdLine (fast slow : ℕ) (xs : List (Option ℚ)) : List (Option ℚ) :=
  List.zipWith (Option.map₂ (fun a b => a - b))
    (ewmMean fast (ffill xs)) (ewmMean slow (ffill xs))

/-- The `macd_ema` column: EMA of the `macd` column. -/
def macdEmaLine (fast slow ms : ℕ) (xs : List (Option ℚ)) : List (Option ℚ) :=
  ewmMean ms (macdLine fast slow xs)

/-- The internal `macd_ema_delta` column `macd - macd_ema`. -/
def macdDelta (fast slow ms : ℕ) (xs : List (Option ℚ)) : List (Option ℚ) :=
  List.zipWith (Option.map₂ (fun a b => a - b))
    (macdLine fast slow xs) (macdEmaLine fast slow ms xs)

/-- Elementwise `> 0` as pandas evaluates it: false on a missing value. -/
def oposb (a : Option ℚ) : Bool :=
  match a with
  | some x => decide (0 < x)
  | none => false

/-- Elementwise `< 0` as pandas evaluates it: false on a missing value. -/
def onegb (a : Option ℚ) : Bool :=
  match a with
  | some x => decide (x < 0)
  | none => false

/-- The chain of `.mask` calls building the MACD signal cell from the
delta and macd cells (`macd.py`, lines 94-98): each mask replaces the
running value where its condition holds, conditions reading the original
columns. -/
def macdMask (d m : Option ℚ) : Option ℚ :=
  let s1 := if oposb d && oposb m then some 2 else d
  let s2 := if oposb d then some 1 else s1
  let s3 := if onegb d && onegb m then some (-2) else s2
  let s4 := if onegb d then some (-1) else s3
  s4

/-- `MacdCalculator.calculate`.  The trailing `astype(int)` raises a
`ValueError` when a signal cell is NaN, so the whole call returns `none`
in that case. -/
def MacdCalculator.calculate (fast slow ms : ℕ) (xs : List (Option ℚ)) :
    Option (List MacdRow) :=
  (optList (List.zipWith macdMask (macdDelta fast slow ms xs)
      (macdLine fast slow xs))).map
    (fun sigs => (List.range xs.length).map
      (fun i =>
        { value := xs.getD i none
          macd := (macdLine fast slow xs).getD i none
          macd_ema := (macdEmaLine fast slow ms xs).getD i none
          signal := pyIntCast (sigs.getD i 0) }))

/-- The validated configuration of a `MacdCalculator`. -/
structure MacdConfig where
  fast_ema_span : ℕ
  slow_ema_span : ℕ
  macd_ema_span : ℕ
  deriving DecidableEq

/-- `MacdCalculator.__init__`: constructing with
`fast_ema_span >= slow_ema_span` raises a `ValueError`, hence `none`. -/
def MacdCalculator.init (fast slow ms : ℕ) : Option MacdConfig :=
  if slow ≤ fast then none else some ⟨fast, slow, ms⟩

/-- Holds when the series is empty or starts with a present value; this
is the shape of input on which the MACD signal column has no NaN. -/
def headDefined {α : Type*} (xs : List (Option α)) : Bool :=
  match xs with
  | [] => true
  | c :: _ => c.isSome

/-- A cell of the `rs` / `rsi` columns under float semantics: NaN, one of
the two infinities produced by dividing a nonzero value by zero, or a
finite value. -/
inductive RCell where
  | nan : RCell
  | pinf : RCell
  | ninf : RCell
  | val (q : ℚ) : RCell
  deriving DecidableEq

/-- Pandas `Series.diff()`: first difference, missing at position 0 and
wherever an operand is missing. -/
def diffList (xs : List (Option ℚ)) : List (Option ℚ) :=
  (List.range xs.length).map
    (fun i => if i = 0 then none
      else Option.map₂ (fun a b => a - b) (xs.getD i none) (xs.getD (i - 1) none))

/-- The `upward` column: the forward-filled first difference with
negative entries masked to 0. -/
def rsiUpward (xs : List (Option ℚ)) : List (Option ℚ) :=
  (diffList (ffill xs)).map (Option.map (fun x => if x < 0 then 0 else x))

/-- The `downward` column: the forward-filled first difference with
positive entries masked to 0, times -1. -/
def rsiDownward (xs : List (Option ℚ)) : List (Option ℚ) :=
  (diffList (ffill xs)).map (Option.map (fun x => (if 0 < x then 0 else x) * (-1)))

/-- The `rs` column: rolling mean of `upward` divided by rolling mean of
`downward`, with float division semantics (`x/0` is NaN for `x = 0` and
a signed infinity otherwise). -/
def rsiRs (w : ℕ) (xs : List (Option ℚ)) (i : ℕ) : RCell :=
  match rollingMean w (rsiUpward xs) i, rollingMean w (rsiDownward xs) i with
  | some u, some d =>
    if d = 0 then (if u = 0 then .nan else if 0 < u then .pinf else .ninf)
    else .val (u / d)
  | _, _ => .nan

/-- The `rsi` column `100 - 100 / (1 + rs)` under float semantics: an
infinite `rs` gives `100` (the correction term vanishes), and a finite
`rs = -1` gives `100 - 100/0.0 = -inf`. -/
def rsiFromRs : RCell → RCell
  | .nan => .nan
  | .pinf => .val 100
  | .ninf => .val 100
  | .val q => if 1 + q = 0 then .ninf else .val (100 - 100 / (1 + q))

/-- The RSI `signal` column from an `rsi` cell:
`np.where(rsi > upper, 1, np.where(rsi < lower, -1, 0))`, where every
comparison against NaN is false. -/
def rsiSignalOf (upper lower : ℚ) : RCell → ℤ
  | .nan => 0
  | .pinf => 1
  | .ninf => -1
  | .val q => if upper < q then 1 else if q < lower then -1 else 0

/-- One row of the RSI output table. -/
structure RsiRow where
  value : Option ℚ
  rs : RCell
  rsi : RCell
  signal : ℤ
  deriving DecidableEq

/-- Row used as the out-of-range default when indexing an RSI table. -/
def rsiDefault : RsiRow := ⟨none, .nan, .nan, 0⟩

/-- Row `i` of the RSI output table. -/
def rsiRowAt (w : ℕ) (upper lower : ℚ) (xs : List (Option ℚ)) (i : ℕ) :
    RsiRow :=
  { value := xs.getD i none
    rs := rsiRs w xs i
    rsi := rsiFromRs (rsiRs w xs i)
    signal := rsiSignalOf upper lower (rsiFromRs (rsiRs w xs i)) }

/-- `RsiCalculator.calculate` with the given `window_size`, `upper_line`
and `lower_line`. -/
def RsiCalculator.calculate (window_size : ℕ) (upper lower : ℚ)
    (xs : List (Option ℚ)) : List RsiRow :=
  (List.range xs.length).map (rsiRowAt window_size upper lower xs)

theorem length_ffillAux {α : Type*} (st : Option α) (l : List (Option α)) :
    (ffillAux st l).length = l.length := by
  induction l generalizing st with
  | nil => rfl
  | cons c t ih => cases c <;> simp [ffillAux, ih]

theorem length_ffill {α : Type*} (xs : List (Option α)) :
    (ffill xs).length = xs.length :=
  length_ffillAux none xs

theorem ffillAux_some_shape {α : Type*} :
    ∀ (t : List (Option α)) (v : α), ∃ l : List α, ffillAux (some v) t = l.map some
  | [], _ => ⟨[], rfl⟩
  | none :: t, v => by
    obtain ⟨l, hl⟩ := ffillAux_some_shape t v
    exact ⟨v :: l, by simp [ffillAux, hl]⟩
  | some w :: t, v => by
    obtain ⟨l, hl⟩ := ffillAux_some_shape t w
    exact ⟨w :: l, by simp [ffillAux, hl]⟩

theorem ffill_shape_of_headDefined {α : Type*} {xs : List (Option α)}
    (h : headDefined xs = true) : ∃ l : List α, ffill xs = l.map some := by
  cases xs with
  | nil => exact ⟨[], rfl⟩
  | cons c t =>
    cases c with
    | none => simp [headDefined] at h
    | some v =>
      obtain ⟨l, hl⟩ := ffillAux_some_shape t v
      exact ⟨v :: l, by simp [ffill, ffillAux, hl]⟩

theorem optList_map_some {α : Type*} (l : List α) :
    optList (l.map some) = some l := by
  induction l with
  | nil => rfl
  | cons v t ih => simp [optList, ih]

theorem optList_eq_some_iff {α : Type*} {xs : List (Option α)} {l : List α} :
    optList xs = some l ↔ xs = l.map some := by
  constructor
  · intro h
    induction xs generalizing l with
    | nil => simp [optList] at h; simp [← h]
    | cons c t ih =>
      cases c with
      | none => simp [optList] at h
      | some v =>
        simp only [optList, Option.map_eq_some'] at h
        obtain ⟨l', hl', hvl⟩ := h
        subst hvl
        simp [ih hl']
  · rintro rfl
    exact optList_map_some l

theorem getD_range_map {α : Type*} (L : List α) (d : α) (n : ℕ)
    (h : L.length = n) :
    (List.range n).map (fun i => L.getD i d) = L := by
  subst h
  apply List.ext_getElem
  · simp
  · intro i h1 h2
    simp only [List.getElem_map, List.getElem_range]
    exact (List.getD_eq_getElem L d h2).symm ▸ rfl

theorem length_ewmAux (a : ℚ) (st : Option ℚ) (l : List (Option ℚ)) :
    (ewmAux a st l).length = l.length := by
  induction l generalizing st with
  | nil => rfl
  | cons c t ih =>
    cases c with
    | none => simp [ewmAux, ih]
    | some v => cases st <;> simp [ewmAux, ih]

theorem length_ewmMean (span : ℕ) (xs : List (Option ℚ)) :
    (ewmMean span xs).length = xs.length :=
  length_ewmAux _ none xs

theorem ewmAux_map_some (a : ℚ) :
    ∀ (l : List ℚ) (p : ℚ),
      ewmAux a (some p) (l.map some) = (specEmaAux a p l).map some
  | [], _ => rfl
  | v :: t, p => by
    simp [ewmAux, specEmaAux, ewmAux_map_some a t]

theorem ewmMean_map_some (span : ℕ) (l : List ℚ) :
    ewmMean span (l.map some) = (specEma span l).map some := by
  cases l with
  | nil => rfl
  | cons v t => simp [ewmMean, ewmAux, specEma, ewmAux_map_some]

theorem length_specEmaAux (a p : ℚ) (l : List ℚ) :
    (specEmaAux a p l).length = l.length := by
  induction l generalizing p with
  | nil => rfl
  | cons v t ih => simp [specEmaAux, ih]

theorem length_specEma (span : ℕ) (l : List ℚ) :
    (specEma span l).length = l.length := by
  cases l with
  | nil => rfl
  | cons v t => simp [specEma, length_specEmaAux]

theorem zipWith_map₂_some {α β γ : Type*} (f : α → β → γ) :
    ∀ (A : List α) (B : List β),
      List.zipWith (Option.map₂ f) (A.map some) (B.map some) =
        (List.zipWith f A B).map some
  | [], _ => by simp
  | _ :: _, [] => by simp
  | a :: A, b :: B => by
    simp [Option.map₂, zipWith_map₂_some f A B]

theorem macdMask_some (d : ℚ) (m : Option ℚ) :
    macdMask (some d) m = some (if 0 < d then 1 else if d < 0 then -1 else d) := by
  rcases lt_trichotomy d 0 with h | h | h
  · simp [macdMask, oposb, onegb, h, not_lt.2 h.le, h.ne]
  · subst h
    simp [macdMask, oposb, onegb]
  · simp [macdMask, oposb, onegb, h, not_lt.2 h.le, h.ne']

theorem zipWith_macdMask_map_some :
    ∀ (D M : List ℚ),
      List.zipWith macdMask (D.map some) (M.map some) =
        (List.zipWith (fun d _ => if 0 < d then 1 else if d < 0 then -1 else d)
          D M).map some
  | [], _ => by simp
  | _ :: _, [] => by simp
  | d :: D, m :: M => by
    simp [macdMask_some, zipWith_macdMask_map_some D M]

theorem exists_of_mem_zipWith {α β γ : Type*} {f : α → β → γ} :
    ∀ {A : List α} {B : List β} {c : γ}, c ∈ List.zipWith f A B →
      ∃ a ∈ A, ∃ b ∈ B, c = f a b
  | [], _, _, h => by simp at h
  | _ :: _, [], _, h => by simp at h
  | a :: A, b :: B, c, h => by
    simp only [List.zipWith_cons_cons, List.mem_cons] at h
    rcases h with h | h
    · exact ⟨a, by simp, b, by simp, h⟩
    · obtain ⟨a', ha', b', hb', hc⟩ := exists_of_mem_zipWith h
      exact ⟨a', by simp [ha'], b', by simp [hb'], hc⟩

theorem getD_mem_or_default {α : Type*} (l : List α) (i : ℕ) (d : α) :
    l.getD i d ∈ l ∨ l.getD i d = d := by
  rcases Nat.lt_or_ge i l.length with h | h
  · left
    rw [List.getD_eq_getElem l d h]
    exact List.getElem_mem h
  · right
    rw [List.getD_eq_getElem?_getD, List.getElem?_eq_none h]
    rfl

theorem length_macdLine (f s : ℕ) (xs : List (Option ℚ)) :
    (macdLine f s xs).length = xs.length := by
  simp [macdLine, List.length_zipWith, length_ewmMean, length_ffill]

theorem length_macdEmaLine (f s ms : ℕ) (xs : List (Option ℚ)) :
    (macdEmaLine f s ms xs).length = xs.length := by
  simp [macdEmaLine, length_ewmMean, length_macdLine]

theorem macdLine_shape (f s : ℕ) (xs : List (Option ℚ)) (l : List ℚ)
    (h : ffill xs = l.map some) :
    macdLine f s xs =
      (List.zipWith (fun a b => a - b) (specEma f l) (specEma s l)).map some := by
  rw [macdLine, h, ewmMean_map_some, ewmMean_map_some, zipWith_map₂_some]

theorem macdDelta_shape (f s ms : ℕ) (xs : List (Option ℚ)) (l : List ℚ)
    (h : ffill xs = l.map some) :
    ∃ D : List ℚ, macdDelta f s ms xs = D.map some := by
  rw [macdDelta, macdEmaLine, macdLine_shape f s xs l h, ewmMean_map_some,
    zipWith_map₂_some]
  exact ⟨_, rfl⟩

theorem macd_calculate_eq_some (f s ms : ℕ) (xs : List (Option ℚ))
    (l : List ℚ) (h : ffill xs = l.map some) :
    ∃ sigs : List ℚ,
      MacdCalculator.calculate f s ms xs =
        some ((List.range xs.length).map
          (fun i =>
            { value := xs.getD i none
              macd := (macdLine f s xs).getD i none
              macd_ema := (macdEmaLine f s ms xs).getD i none
              signal := pyIntCast (sigs.getD i 0) })) := by
  obtain ⟨D, hD⟩ := macdDelta_shape f s ms xs l h
  rw [MacdCalculator.calculate, hD, macdLine_shape f s xs l h,
    zipWith_macdMask_map_some, optList_map_some, Option.map_some']
  exact ⟨_, rfl⟩

theorem macd_eq_some_shape {f s ms : ℕ} {xs : List (Option ℚ)}
    {t : List MacdRow} (h : MacdCalculator.calculate f s ms xs = some t) :
    ∃ sigs : List ℚ,
      optList (List.zipWith macdMask (macdDelta f s ms xs)
        (macdLine f s xs)) = some sigs ∧
      t = (List.range xs.length).map
        (fun i =>
          { value := xs.getD i none
            macd := (macdLine f s xs).getD i none
            macd_ema := (macdEmaLine f s ms xs).getD i none
            signal := pyIntCast (sigs.getD i 0) }) := by
  rw [MacdCalculator.calculate] at h
  obtain ⟨sigs, hsig, ht⟩ := Option.map_eq_some'.1 h
  exact ⟨sigs, hsig, ht.symm⟩

theorem macd_length_of_eq_some {f s ms : ℕ} {xs : List (Option ℚ)}
    {t : List MacdRow} (h : MacdCalculator.calculate f s ms xs = some t) :
    t.length = xs.length := by
  obtain ⟨sigs, -, ht⟩ := macd_eq_some_shape h
  simp [ht]

theorem macd_value_col_of_eq_some {f s ms : ℕ} {xs : List (Option ℚ)}
    {t : List MacdRow} (h : MacdCalculator.calculate f s ms xs = some t) :
    t.map MacdRow.value = xs := by
  obtain ⟨sigs, -, ht⟩ := macd_eq_some_shape h
  subst ht
  rw [List.map_map]
  exact getD_range_map xs none xs.length rfl

theorem macd_macd_col_of_eq_some {f s ms : ℕ} {xs : List (Option ℚ)}
    {t : List MacdRow} (h : MacdCalculator.calculate f s ms xs = some t) :
    t.map MacdRow.macd = macdLine f s xs := by
  obtain ⟨sigs, -, ht⟩ := macd_eq_some_shape h
  subst ht
  rw [List.map_map]
  exact getD_range_map _ none xs.length (length_macdLine f s xs)

theorem bb_length (w : ℕ) (m : ℝ) (xs : List (Option ℝ)) :
    (BollingerBandsCalculator.calculate w m xs).length = xs.length := by
  simp [BollingerBandsCalculator.calculate]

theorem rsi_length (w : ℕ) (u l : ℚ) (xs : List (Option ℚ)) :
    (RsiCalculator.calculate w u l xs).length = xs.length := by
  simp [RsiCalculator.calculate]

theorem bb_getD_lt (w : ℕ) (m : ℝ) (xs : List (Option ℝ)) (i : ℕ)
    (h : i < xs.length) :
    (BollingerBandsCalculator.calculate w m xs).getD i bbDefault =
      bbRowAt w m xs i := by
  have hlen : i < (BollingerBandsCalculator.calculate w m xs).length := by
    rwa [bb_length]
  rw [List.getD_eq_getElem _ _ hlen]
  simp [BollingerBandsCalculator.calculate]

theorem bb_getD_ge (w : ℕ) (m : ℝ) (xs : List (Option ℝ)) (i : ℕ)
    (h : xs.length ≤ i) :
    (BollingerBandsCalculator.calculate w m xs).getD i bbDefault =
      bbDefault := by
  rw [List.getD_eq_getElem?_getD, List.getElem?_eq_none (by rwa [bb_length])]
  rfl

theorem rsi_getD_lt (w : ℕ) (u l : ℚ) (xs : List (Option ℚ)) (i : ℕ)
    (h : i < xs.length) :
    (RsiCalculator.calculate w u l xs).getD i rsiDefault =
      rsiRowAt w u l xs i := by
  have hlen : i < (RsiCalculator.calculate w u l xs).length := by
    rwa [rsi_length]
  rw [List.getD_eq_getElem _ _ hlen]
  simp [RsiCalculator.calculate]

theorem rsi_getD_ge (w : ℕ) (u l : ℚ) (xs : List (Option ℚ)) (i : ℕ)
    (h : xs.length ≤ i) :
    (RsiCalculator.calculate w u l xs).getD i rsiDefault = rsiDefault := by
  rw [List.getD_eq_getElem?_getD, List.getElem?_eq_none (by rwa [rsi_length])]
  rfl

theorem rollingWindow_eq_some {α : Type*} {w : ℕ} {xs : List (Option α)}
    {i : ℕ} {l : List α} (h : rollingWindow w xs i = some l) :
    1 ≤ w ∧ w ≤ i + 1 ∧ i < xs.length ∧
      optList ((xs.drop (i + 1 - w)).take w) = some l := by
  by_cases hc : 1 ≤ w ∧ w ≤ i + 1 ∧ i < xs.length
  · exact ⟨hc.1, hc.2.1, hc.2.2, by rwa [rollingWindow, if_pos hc] at h⟩
  · rw [rollingWindow, if_neg hc] at h
    exact absurd h (by simp)

theorem rollingMean_nonneg {w : ℕ} {L : List (Option ℚ)} {i : ℕ} {u : ℚ}
    (hL : ∀ c ∈ L, ∀ x : ℚ, c = some x → 0 ≤ x)
    (h : rollingMean w L i = some u) : 0 ≤ u := by
  rw [rollingMean] at h
  obtain ⟨l, hl, hu⟩ := Option.map_eq_some'.1 h
  obtain ⟨_, _, _, hopt⟩ := rollingWindow_eq_some hl
  have hmem : ∀ x ∈ l, 0 ≤ x := by
    intro x hx
    have : some x ∈ (L.drop (i + 1 - w)).take w := by
      rw [optList_eq_some_iff.1 hopt]
      exact List.mem_map_of_mem some hx
    have : some x ∈ L := List.drop_subset _ _ (List.take_subset _ _ this)
    exact hL _ this x rfl
  rw [← hu, lmean]
  exact div_nonneg (List.sum_nonneg hmem) (by positivity)

theorem rsiUpward_nonneg (xs : List (Option ℚ)) :
    ∀ c ∈ rsiUpward xs, ∀ x : ℚ, c = some x → 0 ≤ x := by
  intro c hc x hx
  rw [rsiUpward] at hc
  obtain ⟨o, -, ho⟩ := List.mem_map.1 hc
  rw [← ho] at hx
  obtain ⟨y, -, hy⟩ := Option.map_eq_some'.1 hx
  rw [← hy]
  by_cases hneg : y < 0
  · simp [hneg]
  · simp [hneg, le_of_not_lt hneg]

theorem rsiDownward_nonneg (xs : List (Option ℚ)) :
    ∀ c ∈ rsiDownward xs, ∀ x : ℚ, c = some x → 0 ≤ x := by
  intro c hc x hx
  rw [rsiDownward] at hc
  obtain ⟨o, -, ho⟩ := List.mem_map.1 hc
  rw [← ho] at hx
  obtain ⟨y, -, hy⟩ := Option.map_eq_some'.1 hx
  rw [← hy]
  by_cases hpos : 0 < y
  · simp [hpos]
  · have : y ≤ 0 := le_of_not_lt hpos
    simp only [if_neg hpos]
    linarith

theorem pyRound_eq_of_abs_le {r : ℝ} {k : ℤ} (h : |r - k| ≤ FLOAT_TOLERANCE) :
    pyRound r = k := by
  have htol : (FLOAT_TOLERANCE : ℝ) = 1 / 10 ^ 10 := rfl
  rw [abs_le, htol] at h
  rcases le_or_lt (k : ℝ) r with hk | hk
  · have hfl : ⌊r⌋ = k := Int.floor_eq_iff.2 ⟨hk, by linarith [h.2]⟩
    have hfrac : ¬ r - (⌊r⌋ : ℝ) = 1 / 2 := by
      rw [hfl]
      intro hh
      linarith [h.2]
    have hround : round r = k := by
      rw [round_eq]
      exact Int.floor_eq_iff.2 ⟨by linarith, by linarith [h.2]⟩
    rw [pyRound, if_neg hfrac, hround]
  · have hfl : ⌊r⌋ = k - 1 :=
      Int.floor_eq_iff.2 ⟨by push_cast; linarith [h.1], by push_cast; linarith⟩
    have hfrac : ¬ r - (⌊r⌋ : ℝ) = 1 / 2 := by
      rw [hfl]
      push_cast
      intro hh
      linarith [h.1]
    have hround : round r = k := by
      rw [round_eq]
      exact Int.floor_eq_iff.2 ⟨by linarith [h.1], by linarith⟩
    rw [pyRound, if_neg hfrac, hround]

theorem bbSd_eq_some {w : ℕ} {xs : List (Option ℝ)} {i : ℕ} {s : ℝ}
    (h : bbSd w xs i = some s) : i < xs.length ∧ 0 ≤ s := by
  rw [bbSd] at h
  obtain ⟨v, hv, hs⟩ := Option.map_eq_some'.1 h
  obtain ⟨l, hl, -⟩ := Option.bind_eq_some.1 hv
  obtain ⟨-, -, hi, -⟩ := rollingWindow_eq_some hl
  rw [length_ffill] at hi
  exact ⟨hi, hs ▸ Real.sqrt_nonneg v⟩

theorem bbResidual_eq_none_of_ge {w : ℕ} {xs : List (Option ℝ)} {i : ℕ}
    (h : xs.length ≤ i) : bbResidual w xs i = none := by
  have hff : (ffill xs).getD i none = none := by
    rw [List.getD_eq_getElem?_getD,
      List.getElem?_eq_none (by rwa [length_ffill])]
    rfl
  rw [bbResidual, hff]

theorem bb_signal_getD (w : ℕ) (m : ℝ) (xs : List (Option ℝ)) (i : ℕ) :
    ((BollingerBandsCalculator.calculate w m xs).getD i bbDefault).signal =
      bbSignal w xs i := by
  rcases lt_or_ge i xs.length with hi | hi
  · rw [bb_getD_lt w m xs i hi]
    rfl
  · rw [bb_getD_ge w m xs i hi, bbSignal, bbResidual_eq_none_of_ge hi]
    rfl

/-- Claim C6: constructing a `MacdCalculator` fails with the invalid
configuration error exactly when `fast_ema_span >= slow_ema_span`, and
succeeds (yielding the stored spans) when `fast_ema_span < slow_ema_span`;
the check happens at construction, before any `calculate` call. -/
theorem claim_C6 : ∀ fast slow ms : ℕ,
    (MacdCalculator.init fast slow ms = none ↔ slow ≤ fast) ∧
    (fast < slow → MacdCalculator.init fast slow ms = some ⟨fast, slow, ms⟩) := by
  intro f s ms
  refine ⟨⟨fun h => ?_, fun h => ?_⟩, fun h => ?_⟩
  · by_contra hc
    rw [MacdCalculator.init, if_neg hc] at h
    exact absurd h (by simp)
  · rw [MacdCalculator.init, if_pos h]
  · rw [MacdCalculator.init, if_neg (not_le.2 h)]

theorem claim_C6_witness :
    MacdCalculator.init 26 26 9 = none ∧
    MacdCalculator.init 12 26 9 = some ⟨12, 26, 9⟩ :=
  ⟨(claim_C6 26 26 9).1.2 (by decide), (claim_C6 12 26 9).2 (by decide)⟩

/-- Claim C1, amended: the Bollinger Bands and RSI tables always have
exactly one row per input entry; the MACD table does as well whenever
`calculate` returns it, which it does for every input that is empty or
starts with a present value.  (On an input whose first entry is missing,
`MacdCalculator.calculate` raises instead of returning a table; see the
counterexample.) -/
theorem claim_C1 : ∀ (wB : ℕ) (mB : ℝ) (xsB : List (Option ℝ)) (wR : ℕ)
    (uR lR : ℚ) (xsR : List (Option ℚ)) (f s ms : ℕ) (xsM : List (Option ℚ)),
    (BollingerBandsCalculator.calculate wB mB xsB).length = xsB.length ∧
    (RsiCalculator.calculate wR uR lR xsR).length = xsR.length ∧
    (headDefined xsM = true →
      (MacdCalculator.calculate f s ms xsM).map List.length =
        some xsM.length) := by
  intro wB mB xsB wR uR lR xsR f s ms xsM
  refine ⟨bb_length wB mB xsB, rsi_length wR uR lR xsR, fun h => ?_⟩
  obtain ⟨l, hl⟩ := ffill_shape_of_headDefined h
  obtain ⟨sigs, hs⟩ := macd_calculate_eq_some f s ms xsM l hl
  rw [hs]
  simp

theorem claim_C1_witness :
    (BollingerBandsCalculator.calculate 2 2 [some (1 : ℝ)]).length = 1 ∧
    (RsiCalculator.calculate 2 70 30 [some (1 : ℚ)]).length = 1 ∧
    (MacdCalculator.calculate 12 26 9 [some 1, none]).map List.length =
      some 2 := by
  have h := claim_C1 2 2 [some (1 : ℝ)] 2 70 30 [some (1 : ℚ)] 12 26 9
    [some 1, none]
  exact ⟨h.1, h.2.1, h.2.2 rfl⟩

/-- Claim C1, counterexample: on the single-element input whose entry is
missing, `MacdCalculator.calculate` raises (`astype(int)` cannot convert
the NaN signal cell), so no one-row table is returned. -/
theorem claim_C1_counterexample :
    (MacdCalculator.calculate 12 26 9 [none]).map List.length ≠ some 1 := by
  decide

/-- Claim C2, amended: the `value` column of the Bollinger Bands and RSI
tables always equals the input elementwise, missing entries staying
missing; the MACD table satisfies the same whenever `calculate` returns
it, which it does for every input that is empty or starts with a present
value.  (On an input whose first entry is missing,
`MacdCalculator.calculate` raises instead of returning a table.) -/
theorem claim_C2 : ∀ (wB : ℕ) (mB : ℝ) (xsB : List (Option ℝ)) (wR : ℕ)
    (uR lR : ℚ) (xsR : List (Option ℚ)) (f s ms : ℕ) (xsM : List (Option ℚ)),
    (BollingerBandsCalculator.calculate wB mB xsB).map BBRow.value = xsB ∧
    (RsiCalculator.calculate wR uR lR xsR).map RsiRow.value = xsR ∧
    (headDefined xsM = true →
      (MacdCalculator.calculate f s ms xsM).map
        (fun t => t.map MacdRow.value) = some xsM) := by
  intro wB mB xsB wR uR lR xsR f s ms xsM
  refine ⟨?_, ?_, fun h => ?_⟩
  · rw [BollingerBandsCalculator.calculate, List.map_map]
    have : (BBRow.value ∘ bbRowAt wB mB xsB) = fun i => xsB.getD i none := rfl
    rw [this]
    exact getD_range_map xsB none xsB.length rfl
  · rw [RsiCalculator.calculate, List.map_map]
    have : (RsiRow.value ∘ rsiRowAt wR uR lR xsR) =
        fun i => xsR.getD i none := rfl
    rw [this]
    exact getD_range_map xsR none xsR.length rfl
  · obtain ⟨l, hl⟩ := ffill_shape_of_headDefined h
    obtain ⟨sigs, hs⟩ := macd_calculate_eq_some f s ms xsM l hl
    rw [hs, Option.map_some']
    exact congrArg some (macd_value_col_of_eq_some hs)

theorem claim_C2_witness :
    (BollingerBandsCalculator.calculate 3 2 [none, some (2 : ℝ)]).map
      BBRow.value = [none, some (2 : ℝ)] ∧
    (RsiCalculator.calculate 3 70 30 [none, some (2 : ℚ)]).map
      RsiRow.value = [none, some (2 : ℚ)] ∧
    (MacdCalculator.calculate 12 26 9 [some 3, none, some 5]).map
      (fun t => t.map MacdRow.value) = some [some 3, none, some 5] := by
  have h := claim_C2 3 2 [none, some (2 : ℝ)] 3 70 30 [none, some (2 : ℚ)]
    12 26 9 [some 3, none, some 5]
  exact ⟨h.1, h.2.1, h.2.2 rfl⟩

/-- Claim C2, counterexample: on an input whose first entry is missing,
`MacdCalculator.calculate` raises, so no table carrying the `value`
column is returned. -/
theorem claim_C2_counterexample :
    (MacdCalculator.calculate 12 26 9 [none, some 1]).map
      (fun t => t.map MacdRow.value) ≠ some [none, some 1] := by
  decide

/-- Claim C3: whenever `MacdCalculator.calculate` returns a table (its
forward-filled series is fully present), the `macd` column equals the
difference of the spec's recursive non-adjusted EMAs, with the fast and
slow spans, applied to the forward-filled input. -/
theorem claim_C3 : ∀ (f s ms : ℕ) (xs : List (Option ℚ)) (l : List ℚ),
    optList (ffill xs) = some l →
    (MacdCalculator.calculate f s ms xs).map (fun t => t.map MacdRow.macd) =
      some ((List.zipWith (fun a b => a - b)
        (specEma f l) (specEma s l)).map some) := by
  intro f s ms xs l h
  have hl : ffill xs = l.map some := optList_eq_some_iff.1 h
  obtain ⟨sigs, hs⟩ := macd_calculate_eq_some f s ms xs l hl
  rw [hs, Option.map_some']
  rw [macd_macd_col_of_eq_some hs, macdLine_shape f s xs l hl]

theorem claim_C3_witness :
    optList (ffill [some (1 : ℚ), some 4]) = some [1, 4] ∧
    (MacdCalculator.calculate 3 5 3 [some (1 : ℚ), some 4]).map
      (fun t => t.map MacdRow.macd) =
      some ((List.zipWith (fun a b => a - b)
        (specEma 3 [1, 4]) (specEma 5 [1, 4])).map some) :=
  ⟨by decide, claim_C3 3 5 3 [some (1 : ℚ), some 4] [1, 4] (by decide)⟩

theorem macdMask_none (m : Option ℚ) : macdMask none m = none := by
  simp [macdMask, oposb, onegb]

/-- Claim C5, amended: whenever `MacdCalculator.calculate` returns a
table, every `signal` entry is one of the integers -2, -1, 0, 1, 2 (in
fact only -1, 0 and 1 occur, since the later unguarded masks overwrite
the 2 and -2 cells).  On an input whose first entry is missing the
method raises instead of emitting any default code; see the
counterexample. -/
theorem claim_C5 : ∀ (f s ms : ℕ) (xs : List (Option ℚ)) (t : List MacdRow),
    MacdCalculator.calculate f s ms xs = some t →
    ∀ r ∈ t, r.signal ∈ ({-2, -1, 0, 1, 2} : Set ℤ) := by
  intro f s ms xs t h r hr
  obtain ⟨sigs, hsig, ht⟩ := macd_eq_some_shape h
  subst ht
  obtain ⟨i, -, hrow⟩ := List.mem_map.1 hr
  rw [← hrow]
  have hq : ∀ q ∈ sigs, q = 1 ∨ q = -1 ∨ q = 0 := by
    intro q hqs
    have hmem : some q ∈ List.zipWith macdMask (macdDelta f s ms xs)
        (macdLine f s xs) := by
      rw [optList_eq_some_iff.1 hsig]
      exact List.mem_map_of_mem some hqs
    obtain ⟨a, -, b, -, hab⟩ := exists_of_mem_zipWith hmem
    cases a with
    | none => rw [macdMask_none] at hab; exact absurd hab (by simp)
    | some d =>
      rw [macdMask_some] at hab
      have hval : q = if 0 < d then 1 else if d < 0 then -1 else d :=
        Option.some_injective ℚ hab
      rcases lt_trichotomy d 0 with hd | hd | hd
      · right; left; rw [hval, if_neg (not_lt.2 hd.le), if_pos hd]
      · right; right; rw [hval, hd]; simp
      · left; rw [hval, if_pos hd]
  show pyIntCast (sigs.getD i 0) ∈ ({-2, -1, 0, 1, 2} : Set ℤ)
  have hval : sigs.getD i 0 = 1 ∨ sigs.getD i 0 = -1 ∨ sigs.getD i 0 = 0 := by
    rcases getD_mem_or_default sigs i 0 with hmem | hdef
    · exact hq _ hmem
    · exact Or.inr (Or.inr hdef)
  rcases hval with h1 | h1 | h1 <;> rw [h1] <;>
    norm_num [pyIntCast, Set.mem_insert_iff, Int.ceil_neg, Int.floor_one,
      Int.ceil_one, Int.floor_zero]

theorem claim_C5_witness :
    MacdCalculator.calculate 2 4 2 [some (1 : ℚ)] =
      some [⟨some 1, some 0, some 0, 0⟩] ∧
    (⟨some 1, some 0, some 0, 0⟩ : MacdRow).signal ∈
      ({-2, -1, 0, 1, 2} : Set ℤ) :=
  ⟨by
    norm_num [MacdCalculator.calculate, macdDelta, macdEmaLine, macdLine,
      ewmMean, ewmAux, ffill, ffillAux, macdMask, oposb, onegb, optList,
      pyIntCast, List.range_succ],
    claim_C5 2 4 2 [some (1 : ℚ)] [⟨some 1, some 0, some 0, 0⟩]
      (by
        norm_num [MacdCalculator.calculate, macdDelta, macdEmaLine, macdLine,
          ewmMean, ewmAux, ffill, ffillAux, macdMask, oposb, onegb, optList,
          pyIntCast, List.range_succ])
      ⟨some 1, some 0, some 0, 0⟩ (by simp)⟩

/-- Claim C5, counterexample: on the input `[missing]` the undefined
signal cell does not resolve to a default code; `calculate` raises and
returns no table at all. -/
theorem claim_C5_counterexample :
    MacdCalculator.calculate 2 4 2 [none] = none := by
  decide

/-- Claim C7: every defined `rsi` entry of an RSI table lies in the
closed interval [0, 100] (stated, as the spec does, for inputs having at
least one defined entry; the bound needs no such assumption). -/
theorem claim_C7 : ∀ (w : ℕ) (u l : ℚ) (xs : List (Option ℚ)),
    (∃ j q0, ((RsiCalculator.calculate w u l xs).getD j rsiDefault).rsi =
      RCell.val q0) →
    ∀ i q, ((RsiCalculator.calculate w u l xs).getD i rsiDefault).rsi =
      RCell.val q → 0 ≤ q ∧ q ≤ 100 := by
  intro w u l xs _hex i q hq
  rcases lt_or_ge i xs.length with hi | hi
  · rw [rsi_getD_lt w u l xs i hi] at hq
    have hrsi : rsiFromRs (rsiRs w xs i) = RCell.val q := hq
    rcases hU : rollingMean w (rsiUpward xs) i with - | uu
    · rw [rsiRs, hU] at hrsi
      simp [rsiFromRs] at hrsi
    · rcases hD : rollingMean w (rsiDownward xs) i with - | dd
      · rw [rsiRs, hU, hD] at hrsi
        simp [rsiFromRs] at hrsi
      · have hu : 0 ≤ uu := rollingMean_nonneg (rsiUpward_nonneg xs) hU
        have hd : 0 ≤ dd := rollingMean_nonneg (rsiDownward_nonneg xs) hD
        rw [rsiRs, hU, hD] at hrsi
        have hrsi' : rsiFromRs (if dd = 0 then
            (if uu = 0 then RCell.nan
              else if 0 < uu then RCell.pinf else RCell.ninf)
            else RCell.val (uu / dd)) = RCell.val q := hrsi
        by_cases hd0 : dd = 0
        · rw [if_pos hd0] at hrsi'
          by_cases hu0 : uu = 0
          · rw [if_pos hu0] at hrsi'
            simp [rsiFromRs] at hrsi'
          · rw [if_neg hu0, if_pos (lt_of_le_of_ne hu (Ne.symm hu0))] at hrsi'
            simp only [rsiFromRs] at hrsi'
            have : (100 : ℚ) = q := by simpa using hrsi'
            constructor <;> rw [← this] <;> norm_num
        · rw [if_neg hd0] at hrsi'
          have hdpos : 0 < dd := lt_of_le_of_ne hd (Ne.symm hd0)
          have hq' : 0 ≤ uu / dd := div_nonneg hu hd
          have h1q : (0 : ℚ) < 1 + uu / dd := by linarith
          simp only [rsiFromRs] at hrsi'
          rw [if_neg (by linarith)] at hrsi'
          have hqeq : 100 - 100 / (1 + uu / dd) = q := by simpa using hrsi'
          have hdivpos : 0 < 100 / (1 + uu / dd) := by positivity
          have hdivle : 100 / (1 + uu / dd) ≤ 100 := by
            rw [div_le_iff h1q]
            nlinarith
          constructor <;> rw [← hqeq] <;> linarith
  · rw [rsi_getD_ge w u l xs i hi] at hq
    exact absurd hq (by simp [rsiDefault])

theorem claim_C7_witness :
    ((RsiCalculator.calculate 1 70 30 [some (1 : ℚ), some 2]).getD 1
      rsiDefault).rsi = RCell.val 100 ∧
    0 ≤ (100 : ℚ) ∧ (100 : ℚ) ≤ 100 := by
  have heval : ((RsiCalculator.calculate 1 70 30 [some (1 : ℚ), some 2]).getD 1
      rsiDefault).rsi = RCell.val 100 := by
    norm_num [RsiCalculator.calculate, rsiRowAt, rsiRs, rsiFromRs, rsiUpward,
      rsiDownward, diffList, ffill, ffillAux, rollingMean, rollingWindow,
      optList, lmean, List.range_succ]
  exact ⟨heval,
    claim_C7 1 70 30 [some (1 : ℚ), some 2] ⟨1, 100, heval⟩ 1 100 heval⟩

/-- Claim C8: the RSI `signal` entry is 1 where the `rsi` cell exceeds
`upper_line` (including the saturated infinite case), -1 where it is
below `lower_line` (including the negative-infinite case), and 0
otherwise, a missing `rsi` in particular giving 0. -/
theorem claim_C8 : ∀ (w : ℕ) (u l : ℚ) (xs : List (Option ℚ)) (i : ℕ),
    (((RsiCalculator.calculate w u l xs).getD i rsiDefault).rsi = RCell.nan →
      ((RsiCalculator.calculate w u l xs).getD i rsiDefault).signal = 0) ∧
    (∀ q, ((RsiCalculator.calculate w u l xs).getD i rsiDefault).rsi =
        RCell.val q →
      ((RsiCalculator.calculate w u l xs).getD i rsiDefault).signal =
        if u < q then 1 else if q < l then -1 else 0) ∧
    (((RsiCalculator.calculate w u l xs).getD i rsiDefault).rsi = RCell.pinf →
      ((RsiCalculator.calculate w u l xs).getD i rsiDefault).signal = 1) ∧
    (((RsiCalculator.calculate w u l xs).getD i rsiDefault).rsi = RCell.ninf →
      ((RsiCalculator.calculate w u l xs).getD i rsiDefault).signal = -1) := by
  intro w u l xs i
  rcases lt_or_ge i xs.length with hi | hi
  · rw [rsi_getD_lt w u l xs i hi]
    refine ⟨fun h => ?_, fun q h => ?_, fun h => ?_, fun h => ?_⟩ <;>
      · have hsig : (rsiRowAt w u l xs i).signal =
            rsiSignalOf u l (rsiFromRs (rsiRs w xs i)) := rfl
        have hr : (rsiRowAt w u l xs i).rsi = rsiFromRs (rsiRs w xs i) := rfl
        rw [hsig, hr.symm.trans h]
        rfl
  · rw [rsi_getD_ge w u l xs i hi]
    refine ⟨fun h => rfl, fun q h => ?_, fun h => ?_, fun h => ?_⟩ <;>
      exact absurd h (by simp [rsiDefault])

theorem claim_C8_witness :
    ((RsiCalculator.calculate 1 70 30 [some (2 : ℚ), some 1]).getD 1
      rsiDefault).signal = -1 ∧
    ((RsiCalculator.calculate 1 70 30 [some (2 : ℚ), some 1]).getD 0
      rsiDefault).signal = 0 := by
  constructor
  · have h := (claim_C8 1 70 30 [some (2 : ℚ), some 1] 1).2.1 0
      (by
        norm_num [RsiCalculator.calculate, rsiRowAt, rsiRs, rsiFromRs,
          rsiUpward, rsiDownward, diffList, ffill, ffillAux, rollingMean,
          rollingWindow, optList, lmean, List.range_succ])
    norm_num at h
    exact h
  · exact (claim_C8 1 70 30 [some (2 : ℚ), some 1] 0).1
      (by
        norm_num [RsiCalculator.calculate, rsiRowAt, rsiRs, rsiFromRs,
          rsiUpward, rsiDownward, diffList, ffill, ffillAux, rollingMean,
          rollingWindow, optList, lmean, List.range_succ])

theorem bbResidual_eq {w : ℕ} {xs : List (Option ℝ)} {i : ℕ} {v m s : ℝ}
    (hv : (ffill xs).getD i none = some v) (hm : bbMa w xs i = some m)
    (hs : bbSd w xs i = some s) (hs0 : s ≠ 0) :
    bbResidual w xs i = some ((v - m) / s) := by
  rw [bbResidual, hv, hm, hs]
  show (if s = 0 then none else some ((v - m) / s)) = some ((v - m) / s)
  rw [if_neg hs0]

theorem bbSignal_eq_val {w : ℕ} {xs : List (Option ℝ)} {i : ℕ} {x : ℝ}
    (h : bbResidual w xs i = some x) : bbSignal w xs i = bbSignalVal x := by
  rw [bbSignal, h]

theorem bbSignal_eq_zero {w : ℕ} {xs : List (Option ℝ)} {i : ℕ}
    (h : bbResidual w xs i = none) : bbSignal w xs i = 0 := by
  rw [bbSignal, h]

/-- Claim C4, amended: the Bollinger signal is 0 where the residual
`(value_ff - ma) / sd` is missing (in particular where it is 0/0); where
the residual is present and farther than `FLOAT_TOLERANCE` from its
Python-rounded value it is `floor(residual)` for positive residuals and
`ceil(residual)` for negative ones; but where the residual is within
`FLOAT_TOLERANCE` of an integer, the signal is that rounded value
instead, which can differ from the plain floor/ceil (see the
counterexample). -/
theorem claim_C4 : ∀ (w : ℕ) (m : ℝ) (xs : List (Option ℝ)) (i : ℕ),
    (bbResidual w xs i = none →
      ((BollingerBandsCalculator.calculate w m xs).getD i bbDefault).signal
        = 0) ∧
    (∀ r : ℝ, bbResidual w xs i = some r →
      |r - (pyRound r : ℝ)| ≤ FLOAT_TOLERANCE →
      ((BollingerBandsCalculator.calculate w m xs).getD i bbDefault).signal
        = pyRound r) ∧
    (∀ r : ℝ, bbResidual w xs i = some r →
      FLOAT_TOLERANCE < |r - (pyRound r : ℝ)| →
      ((BollingerBandsCalculator.calculate w m xs).getD i bbDefault).signal
        = if 0 < r then ⌊r⌋ else ⌈r⌉) := by
  intro w m xs i
  refine ⟨fun h => ?_, fun r hres htl => ?_, fun r hres htl => ?_⟩
  · rw [bb_signal_getD, bbSignal_eq_zero h]
  · rw [bb_signal_getD, bbSignal_eq_val hres, bbSignalVal,
      if_neg (not_lt.2 htl)]
  · rw [bb_signal_getD, bbSignal_eq_val hres, bbSignalVal, if_pos htl]

theorem claim_C4_witness :
    bbResidual 3 [some (1 : ℝ), some 0, some 2] 1 = none ∧
    ((BollingerBandsCalculator.calculate 3 2
      [some (1 : ℝ), some 0, some 2]).getD 1 bbDefault).signal = 0 ∧
    bbResidual 3 [some (1 : ℝ), some 0, some 2] 2 = some 1 ∧
    |(1 : ℝ) - (pyRound 1 : ℝ)| ≤ FLOAT_TOLERANCE ∧
    ((BollingerBandsCalculator.calculate 3 2
      [some (1 : ℝ), some 0, some 2]).getD 2 bbDefault).signal = pyRound 1 := by
  have hres1 : bbResidual 3 [some (1 : ℝ), some 0, some 2] 1 = none := by
    rw [bbResidual]
    have hma : bbMa 3 [some (1 : ℝ), some 0, some 2] 1 = none := by
      rw [bbMa, rollingMean, rollingWindow, if_neg (by norm_num)]
      rfl
    rw [hma]
    have hff : (ffill [some (1 : ℝ), some 0, some 2]).getD 1 none = some 0 :=
      by norm_num [ffill, ffillAux]
    rw [hff]
  have hw : rollingWindow 3 (ffill [some (1 : ℝ), some 0, some 2]) 2 =
      some [1, 0, 2] := by
    norm_num [rollingWindow, ffill, ffillAux, optList]
  have hma : bbMa 3 [some (1 : ℝ), some 0, some 2] 2 = some 1 := by
    rw [bbMa, rollingMean, hw, Option.map_some']
    norm_num [lmean]
  have hsd : bbSd 3 [some (1 : ℝ), some 0, some 2] 2 = some 1 := by
    rw [bbSd, rollingVar, hw]
    have hvar : (if ([(1 : ℝ), 0, 2]).length ≤ 1 then none
        else some (sampleVar [(1 : ℝ), 0, 2])) = some ((1 : ℝ) ^ 2) := by
      rw [if_neg (by norm_num)]
      norm_num [sampleVar, lmean]
    rw [Option.some_bind, hvar, Option.map_some', Real.sqrt_sq (by norm_num)]
  have hff : (ffill [some (1 : ℝ), some 0, some 2]).getD 2 none = some 2 := by
    norm_num [ffill, ffillAux]
  have hres2 : bbResidual 3 [some (1 : ℝ), some 0, some 2] 2 = some 1 := by
    rw [bbResidual_eq hff hma hsd (by norm_num)]
    norm_num
  have hpr : pyRound (1 : ℝ) = 1 :=
    pyRound_eq_of_abs_le (by norm_num [FLOAT_TOLERANCE])
  have htol : |(1 : ℝ) - (pyRound 1 : ℝ)| ≤ FLOAT_TOLERANCE := by
    rw [hpr]
    norm_num [FLOAT_TOLERANCE]
  exact ⟨hres1, (claim_C4 3 2 [some (1 : ℝ), some 0, some 2] 1).1 hres1,
    hres2, htol,
    (claim_C4 3 2 [some (1 : ℝ), some 0, some 2] 2).2.1 1 hres2 htol⟩

/-- Claim C4, counterexample: with window 3 and input values
(-(N^2+2N-3), 4N, N^2-2N-3) for N = 4*10^10, the window has mean 0 and
standard deviation N^2+3, so the residual r = (N^2-2N-3)/(N^2+3) is
positive, within 10^-10 of 1 but less than 1.  The claim's floor(r) is 0,
yet the code's tolerance branch rounds and emits signal 1. -/
theorem claim_C4_counterexample :
    bbResidual 3 [some (-1600000000079999999997 : ℝ), some 160000000000,
      some 1599999999919999999997] 2 =
      some ((1599999999919999999997 : ℝ) / 1600000000000000000003) ∧
    0 < (1599999999919999999997 : ℝ) / 1600000000000000000003 ∧
    ⌊(1599999999919999999997 : ℝ) / 1600000000000000000003⌋ = 0 ∧
    ((BollingerBandsCalculator.calculate 3 2
      [some (-1600000000079999999997 : ℝ), some 160000000000,
        some 1599999999919999999997]).getD 2 bbDefault).signal = 1 := by
  have hw : rollingWindow 3 (ffill [some (-1600000000079999999997 : ℝ),
      some 160000000000, some 1599999999919999999997]) 2 =
      some [-1600000000079999999997, 160000000000, 1599999999919999999997] := by
    norm_num [rollingWindow, ffill, ffillAux, optList]
  have hma : bbMa 3 [some (-1600000000079999999997 : ℝ), some 160000000000,
      some 1599999999919999999997] 2 = some 0 := by
    rw [bbMa, rollingMean, hw, Option.map_some']
    norm_num [lmean]
  have hsd : bbSd 3 [some (-1600000000079999999997 : ℝ), some 160000000000,
      some 1599999999919999999997] 2 = some 1600000000000000000003 := by
    rw [bbSd, rollingVar, hw, Option.some_bind]
    have hvar : (if ([(-1600000000079999999997 : ℝ), 160000000000,
        1599999999919999999997]).length ≤ 1 then none
        else some (sampleVar [(-1600000000079999999997 : ℝ), 160000000000,
          1599999999919999999997])) =
        some ((1600000000000000000003 : ℝ) ^ 2) := by
      rw [if_neg (by norm_num)]
      norm_num [sampleVar, lmean]
    rw [hvar, Option.map_some', Real.sqrt_sq (by norm_num)]
  have hff : (ffill [some (-1600000000079999999997 : ℝ), some 160000000000,
      some 1599999999919999999997]).getD 2 none =
      some 1599999999919999999997 := by
    norm_num [ffill, ffillAux]
  have hres : bbResidual 3 [some (-1600000000079999999997 : ℝ),
      some 160000000000, some 1599999999919999999997] 2 =
      some ((1599999999919999999997 : ℝ) / 1600000000000000000003) := by
    rw [bbResidual_eq hff hma hsd (by norm_num)]
    norm_num
  have hpos : 0 < (1599999999919999999997 : ℝ) / 1600000000000000000003 := by
    positivity
  have hlt1 : (1599999999919999999997 : ℝ) / 1600000000000000000003 < 1 := by
    rw [div_lt_one (by norm_num)]
    norm_num
  have hfl : ⌊(1599999999919999999997 : ℝ) / 1600000000000000000003⌋ = 0 :=
    Int.floor_eq_iff.2 ⟨by push_cast; linarith, by push_cast; linarith⟩
  have hge : (1 : ℝ) - 1599999999919999999997 / 1600000000000000000003 ≤
      1 / 10 ^ 10 := by
    rw [sub_le_iff_le_add, div_add_div _ _ (by norm_num) (by norm_num),
      le_div_iff (by norm_num)]
    norm_num
  have htolk : |(1599999999919999999997 : ℝ) / 1600000000000000000003 -
      ((1 : ℤ) : ℝ)| ≤ FLOAT_TOLERANCE := by
    rw [Int.cast_one, abs_of_nonpos (by linarith)]
    show -((1599999999919999999997 : ℝ) / 1600000000000000000003 - 1) ≤
      1 / 10 ^ 10
    linarith
  have hpr : pyRound ((1599999999919999999997 : ℝ) /
      1600000000000000000003) = 1 := pyRound_eq_of_abs_le htolk
  refine ⟨hres, hpos, hfl, ?_⟩
  rw [bb_signal_getD, bbSignal_eq_val hres, bbSignalVal, hpr,
    if_neg (not_lt.2 htolk)]

theorem bandWidth_of_ma_sd (mult : ℝ) {w : ℕ} {xs : List (Option ℝ)} {i : ℕ}
    {m s : ℝ} (hma : bbMa w xs i = some m) (hsd : bbSd w xs i = some s)
    (hi : i < xs.length) :
    bandWidth ((BollingerBandsCalculator.calculate w mult xs).getD i
      bbDefault) = some (2 * (s * mult)) := by
  rw [bb_getD_lt w mult xs i hi]
  have hup : (bbRowAt w mult xs i).upper_bb = some (m + s * mult) := by
    show Option.map₂ (fun m s => m + s * mult) (bbMa w xs i) (bbSd w xs i) = _
    rw [hma, hsd]
    rfl
  have hlo : (bbRowAt w mult xs i).lower_bb = some (m - s * mult) := by
    show Option.map₂ (fun m s => m - s * mult) (bbMa w xs i) (bbSd w xs i) = _
    rw [hma, hsd]
    rfl
  rw [bandWidth, hup, hlo]
  show some ((m + s * mult) - (m - s * mult)) = some (2 * (s * mult))
  congr 1
  ring

/-- Claim C9, amended: with a larger `sd_multiplier` the band width
`upper_bb - lower_bb` is strictly larger at every position where the
bands are defined and the rolling standard deviation is nonzero; at a
defined position whose window is constant (`sd = 0`) both widths are 0,
so the strict inequality fails there even for a non-constant input (see
the counterexample). -/
theorem claim_C9 : ∀ (w : ℕ) (m1 m2 : ℝ) (xs : List (Option ℝ)) (i : ℕ)
    (m s : ℝ), m1 < m2 → bbMa w xs i = some m → bbSd w xs i = some s →
    0 < s →
    bandWidth ((BollingerBandsCalculator.calculate w m2 xs).getD i
      bbDefault) = some (2 * (s * m2)) ∧
    bandWidth ((BollingerBandsCalculator.calculate w m1 xs).getD i
      bbDefault) = some (2 * (s * m1)) ∧
    2 * (s * m1) < 2 * (s * m2) := by
  intro w m1 m2 xs i m s h12 hma hsd hs
  have hi : i < xs.length := (bbSd_eq_some hsd).1
  exact ⟨bandWidth_of_ma_sd m2 hma hsd hi, bandWidth_of_ma_sd m1 hma hsd hi,
    by nlinarith⟩

theorem claim_C9_witness :
    bandWidth ((BollingerBandsCalculator.calculate 3 2
      [some (2 : ℝ), some 0, some 4]).getD 2 bbDefault) =
      some (2 * ((2 : ℝ) * 2)) ∧
    bandWidth ((BollingerBandsCalculator.calculate 3 1
      [some (2 : ℝ), some 0, some 4]).getD 2 bbDefault) =
      some (2 * ((2 : ℝ) * 1)) ∧
    2 * ((2 : ℝ) * 1) < 2 * ((2 : ℝ) * 2) := by
  have hw : rollingWindow 3 (ffill [some (2 : ℝ), some 0, some 4]) 2 =
      some [2, 0, 4] := by
    norm_num [rollingWindow, ffill, ffillAux, optList]
  have hma : bbMa 3 [some (2 : ℝ), some 0, some 4] 2 = some 2 := by
    rw [bbMa, rollingMean, hw, Option.map_some']
    norm_num [lmean]
  have hsd : bbSd 3 [some (2 : ℝ), some 0, some 4] 2 = some 2 := by
    rw [bbSd, rollingVar, hw, Option.some_bind]
    have hvar : (if ([(2 : ℝ), 0, 4]).length ≤ 1 then none
        else some (sampleVar [(2 : ℝ), 0, 4])) = some ((2 : ℝ) ^ 2) := by
      rw [if_neg (by norm_num)]
      norm_num [sampleVar, lmean]
    rw [hvar, Option.map_some', Real.sqrt_sq (by norm_num)]
  exact claim_C9 3 1 2 [some (2 : ℝ), some 0, some 4] 2 2 2 (by norm_num)
    hma hsd (by norm_num)

/-- Claim C9, counterexample: the input (1, 1, 1, 2) is non-constant and
1 < 2 as multipliers, but at position 2 the window (1, 1, 1) is constant,
both bands are defined and both widths are 0, so the width with the
larger multiplier is not strictly greater there. -/
theorem claim_C9_counterexample :
    some (1 : ℝ) ∈ [some (1 : ℝ), some 1, some 1, some 2] ∧
    some (2 : ℝ) ∈ [some (1 : ℝ), some 1, some 1, some 2] ∧
    (1 : ℝ) ≠ 2 ∧
    bandWidth ((BollingerBandsCalculator.calculate 3 2
      [some (1 : ℝ), some 1, some 1, some 2]).getD 2 bbDefault) = some 0 ∧
    bandWidth ((BollingerBandsCalculator.calculate 3 1
      [some (1 : ℝ), some 1, some 1, some 2]).getD 2 bbDefault) = some 0 ∧
    ¬ ((0 : ℝ) < 0) := by
  have hw : rollingWindow 3 (ffill [some (1 : ℝ), some 1, some 1, some 2])
      2 = some [1, 1, 1] := by
    norm_num [rollingWindow, ffill, ffillAux, optList]
  have hma : bbMa 3 [some (1 : ℝ), some 1, some 1, some 2] 2 = some 1 := by
    rw [bbMa, rollingMean, hw, Option.map_some']
    norm_num [lmean]
  have hsd : bbSd 3 [some (1 : ℝ), some 1, some 1, some 2] 2 = some 0 := by
    rw [bbSd, rollingVar, hw, Option.some_bind]
    have hvar : (if ([(1 : ℝ), 1, 1]).length ≤ 1 then none
        else some (sampleVar [(1 : ℝ), 1, 1])) = some (0 : ℝ) := by
      rw [if_neg (by norm_num)]
      norm_num [sampleVar, lmean]
    rw [hvar, Option.map_some', Real.sqrt_zero]
  have h2 := bandWidth_of_ma_sd 2 hma hsd (by norm_num)
  have h1 := bandWidth_of_ma_sd 1 hma hsd (by norm_num)
  norm_num at h2 h1
  exact ⟨by simp, by simp, by norm_num, h2, h1, by norm_num⟩

/-- Claim C10: wherever the residual is defined and within
`FLOAT_TOLERANCE` of an integer, the Bollinger signal is exactly that
nearest integer, even where the plain floor or ceiling would differ. -/
theorem claim_C10 : ∀ (w : ℕ) (m : ℝ) (xs : List (Option ℝ)) (i : ℕ)
    (r : ℝ) (k : ℤ), bbResidual w xs i = some r →
    |r - (k : ℝ)| ≤ FLOAT_TOLERANCE →
    ((BollingerBandsCalculator.calculate w m xs).getD i bbDefault).signal
      = k := by
  intro w m xs i r k hres htol
  have hpr : pyRound r = k := pyRound_eq_of_abs_le htol
  rw [bb_signal_getD, bbSignal_eq_val hres, bbSignalVal, hpr,
    if_neg (not_lt.2 htol)]

theorem claim_C10_witness :
    bbResidual 3 [some (0 : ℝ), some 1, some 2] 2 = some 1 ∧
    |(1 : ℝ) - ((1 : ℤ) : ℝ)| ≤ FLOAT_TOLERANCE ∧
    ((BollingerBandsCalculator.calculate 3 2
      [some (0 : ℝ), some 1, some 2]).getD 2 bbDefault).signal = 1 := by
  have hw : rollingWindow 3 (ffill [some (0 : ℝ), some 1, some 2]) 2 =
      some [0, 1, 2] := by
    norm_num [rollingWindow, ffill, ffillAux, optList]
  have hma : bbMa 3 [some (0 : ℝ), some 1, some 2] 2 = some 1 := by
    rw [bbMa, rollingMean, hw, Option.map_some']
    norm_num [lmean]
  have hsd : bbSd 3 [some (0 : ℝ), some 1, some 2] 2 = some 1 := by
    rw [bbSd, rollingVar, hw, Option.some_bind]
    have hvar : (if ([(0 : ℝ), 1, 2]).length ≤ 1 then none
        else some (sampleVar [(0 : ℝ), 1, 2])) = some ((1 : ℝ) ^ 2) := by
      rw [if_neg (by norm_num)]
      norm_num [sampleVar, lmean]
    rw [hvar, Option.map_some', Real.sqrt_sq (by norm_num)]
  have hff : (ffill [some (0 : ℝ), some 1, some 2]).getD 2 none = some 2 := by
    norm_num [ffill, ffillAux]
  have hres : bbResidual 3 [some (0 : ℝ), some 1, some 2] 2 = some 1 := by
    rw [bbResidual_eq hff hma hsd (by norm_num)]
    norm_num
  have htol : |(1 : ℝ) - ((1 : ℤ) : ℝ)| ≤ FLOAT_TOLERANCE := by
    rw [Int.cast_one]
    norm_num [FLOAT_TOLERANCE]
  exact ⟨hres, htol,
    claim_C10 3 2 [some (0 : ℝ), some 1, some 2] 2 1 1 hres htol⟩
